import Mathlib

/-!
Verification development for the imessage-exporter repository.

The Python sources are shallowly embedded: byte blobs become `List Nat`,
Python strings become Lean `String`/`List Char`, dictionaries become
association lists (`List (String × β)`), `None`-able values become `Option`,
and fallible code returns `Option`.  Each definition is translated from one
source function and is named after it; where two source files define a
function of the same name, namespaces distinguish them.
-/

/-- Python truthiness of an optional string: `None` and `""` are falsy. -/
def truthyS : Option String → Bool
  | none => false
  | some s => s ≠ ""

/-- Python truthiness of an optional byte blob: `None` and `b""` are falsy. -/
def truthyB : Option (List Nat) → Bool
  | none => false
  | some b => b ≠ []

/-- Python `str(x)` for an optional string (`str(None) = "None"`). -/
def py_str_opt : Option String → String
  | none => "None"
  | some s => s

/-- Dictionary lookup (`d[k]` / `k in d`), modelling a Python dict as an
association list probed front to back. -/
def dict_get {β : Type} (d : List (String × β)) (k : String) : Option β :=
  match d with
  | [] => none
  | (k1, v) :: rest => if k1 = k then some v else dict_get rest k

/-- Python `s[-10:]` on a character list of length ≥ 10. -/
def last10 (l : List Char) : List Char := l.drop (l.length - 10)

/-- Python `s.startswith(pre)`. -/
def py_startswith (s pre : String) : Bool :=
  s.data.take pre.data.length = pre.data

/-- ASCII whitespace recognised by Python `str.strip()` (the Unicode
whitespace set is approximated by its ASCII members, the only ones the
repository's data can contain at the stripping sites). -/
def py_ws (c : Char) : Bool :=
  c = ' ' || c = '\t' || c = '\n' || c = '\r' || c = '\x0b' || c = '\x0c'

/-- Python `s.strip()` on a character list. -/
def py_strip (l : List Char) : List Char :=
  ((l.dropWhile py_ws).reverse.dropWhile py_ws).reverse

namespace SaveContactMappings

/-- `save_contact_mappings.clean_phone_number` (lines 39–46): strip
non-digits (Python `\D`; approximated by ASCII digits, the only digits
occurring in phone identifiers) and prepend `1` when exactly 10 digits
remain; empty input yields the empty string. -/
def clean_phone_number (phone : String) : String :=
  if phone = "" then ""
  else
    let cleaned := phone.data.filter Char.isDigit
    let cleaned := if cleaned.length = 10 then '1' :: cleaned else cleaned
    String.mk cleaned

end SaveContactMappings

namespace IMessageExport

/-- `imessage_export.clean_phone_number` (lines 50–59): same digit
normalization, but the result is returned with a `+` prefix, and an input
with no digits at all is returned unchanged.  (The source's
`elif len == 11 and startswith('1'): pass` branch is a no-op and is
therefore not reflected by a branch here.) -/
def clean_phone_number (phone : String) : String :=
  if phone = "" then ""
  else
    let cleaned := phone.data.filter Char.isDigit
    let cleaned := if cleaned.length = 10 then '1' :: cleaned else cleaned
    if cleaned ≠ [] then "+" ++ String.mk cleaned else phone

/-- The `for variant in variants` loop of `resolve_contact_name`
(lines 215–217): probe each variant in order, skipping falsy entries
(`None` or `""`), returning the first dictionary hit. -/
def probe_variants (ptn : List (String × String)) :
    List (Option String) → Option String
  | [] => none
  | v :: rest =>
    match v with
    | none => probe_variants ptn rest
    | some s =>
      if s = "" then probe_variants ptn rest
      else
        match dict_get ptn s with
        | some n => some n
        | none => probe_variants ptn rest

/-- `imessage_export.resolve_contact_name` (lines 197–219): direct lookup of
the raw identifier, then the variant list
`[cleaned, "+"+cleaned, "+1"+cleaned[-10:], cleaned[-10:]]` (the last two
present only when the cleaned digit string has length ≥ 10). -/
def resolve_contact_name (phone : Option String) (ptn : List (String × String)) :
    Option String :=
  let direct : Option String :=
    match phone with
    | some p => dict_get ptn p
    | none => none
  match direct with
  | some n => some n
  | none =>
    let cleaned := (py_str_opt phone).data.filter Char.isDigit
    let cleaned := if cleaned.length = 10 then '1' :: cleaned else cleaned
    let cstr := String.mk cleaned
    let variants : List (Option String) :=
      [some cstr,
       some ("+" ++ cstr),
       if cleaned.length ≥ 10 then some ("+1" ++ String.mk (last10 cleaned)) else none,
       if cleaned.length ≥ 10 then some (String.mk (last10 cleaned)) else none]
    probe_variants ptn variants

end IMessageExport

/-! ## Blob text decoder (`decode_attributed_body`, imessage_export.py 101–191)

The same decoder appears as `decode_attributed_body_correct` in
`extract_messages_final_correct.py` (lines 91–205) with identical logic. -/

/-- Strict UTF-8 decoding, modelling Python
`bytes.decode('utf-8', errors='strict')`: rejects continuation errors,
overlong forms, surrogates and code points beyond U+10FFFF, exactly as
CPython's strict codec does. -/
def utf8_decode : List Nat → Option (List Char)
  | [] => some []
  | b :: rest =>
    if b < 0x80 then
      (utf8_decode rest).map (fun cs => Char.ofNat b :: cs)
    else if 0xC2 ≤ b ∧ b ≤ 0xDF then
      match rest with
      | b2 :: rest2 =>
        if 0x80 ≤ b2 ∧ b2 ≤ 0xBF then
          (utf8_decode rest2).map
            (fun cs => Char.ofNat ((b - 0xC0) * 64 + (b2 - 0x80)) :: cs)
        else none
      | [] => none
    else if 0xE0 ≤ b ∧ b ≤ 0xEF then
      match rest with
      | b2 :: b3 :: rest3 =>
        let lo2 := if b = 0xE0 then 0xA0 else 0x80
        let hi2 := if b = 0xED then 0x9F else 0xBF
        if (lo2 ≤ b2 ∧ b2 ≤ hi2) ∧ (0x80 ≤ b3 ∧ b3 ≤ 0xBF) then
          (utf8_decode rest3).map
            (fun cs =>
              Char.ofNat ((b - 0xE0) * 4096 + (b2 - 0x80) * 64 + (b3 - 0x80)) :: cs)
        else none
      | _ => none
    else if 0xF0 ≤ b ∧ b ≤ 0xF4 then
      match rest with
      | b2 :: b3 :: b4 :: rest4 =>
        let lo2 := if b = 0xF0 then 0x90 else 0x80
        let hi2 := if b = 0xF4 then 0x8F else 0xBF
        if (lo2 ≤ b2 ∧ b2 ≤ hi2) ∧ (0x80 ≤ b3 ∧ b3 ≤ 0xBF) ∧
            (0x80 ≤ b4 ∧ b4 ≤ 0xBF) then
          (utf8_decode rest4).map
            (fun cs =>
              Char.ofNat ((b - 0xF0) * 262144 + (b2 - 0x80) * 4096 +
                (b3 - 0x80) * 64 + (b4 - 0x80)) :: cs)
        else none
      | _ => none
    else none

/-- Python `blob.find(pat, start)`: index of the first occurrence of `pat`
at an index ≥ `start`, or `none` (Python's `-1`).  Only used with nonempty
patterns, matching the source. -/
def find_pat (blob pat : List Nat) (start : Nat) : Option Nat :=
  ((List.range (blob.length + 1)).filter
    (fun i => start ≤ i ∧ (blob.drop i).take pat.length = pat)).head?

/-- The `b'NSString'` anchor token. -/
def nsstring_pat : List Nat := [0x4E, 0x53, 0x53, 0x74, 0x72, 0x69, 0x6E, 0x67]

/-- The ordered format-marker list of `decode_attributed_body`
(lines 111–116); every entry carries `length_offset = 0` in the source, so
the offsets are not modelled separately. -/
def marker_patterns : List (List Nat) :=
  [[0x67, 0x01, 0x94, 0x84, 0x01, 0x2B],
   [0x84, 0x01, 0x2B],
   [0x01, 0x94, 0x84, 0x01, 0x2B],
   [0x01, 0x95, 0x84, 0x01, 0x2B]]

/-- Length-descriptor interpretation of `decode_attributed_body`
(lines 123–138): given the index `lp` of the byte immediately after a
format marker, return `(text_length, text_start)`, or `none` when this
marker must be skipped. -/
def parse_text_region (blob : List Nat) (lp : Nat) : Option (Nat × Nat) :=
  if lp < blob.length then
    let b := blob.getD lp 0
    if 0x80 ≤ b then
      let n := b &&& 0x7F
      if n = 1 ∧ lp + 2 < blob.length then
        some (blob.getD (lp + 1) 0, lp + 3)
      else if n = 2 ∧ lp + 3 < blob.length then
        some (blob.getD (lp + 1) 0 ||| (blob.getD (lp + 2) 0 <<< 8), lp + 4)
      else none
    else some (b, lp + 1)
  else none

/-- The character-cleaning loop of `decode_attributed_body`
(lines 145–150): keep characters with code point ≥ 32 and the exempt
`\n`, `\t`, `\r`; stop at the first other character below 32.  The final
branch mirrors the source's unreachable fall-through (a character neither
kept nor below 32), which would continue the loop without appending. -/
def clean_chars : List Char → List Char
  | [] => []
  | c :: rest =>
    if 32 ≤ c.toNat ∨ c = '\n' ∨ c = '\t' ∨ c = '\r' then c :: clean_chars rest
    else if c.toNat < 32 then []
    else clean_chars rest

/-- Acceptance step of the marker path (lines 145–154): clean, strip, and
emit only a non-empty result. -/
def marker_accept (cs : List Char) : Option String :=
  let ct := py_strip (clean_chars cs)
  if 0 < ct.length then some (String.mk ct) else none

/-- One iteration of the `for pattern in patterns` loop (lines 118–157):
find the marker, interpret the length descriptor, bounds- and range-check,
decode strict UTF-8 and accept.  Any failure yields `none`, moving to the
next marker. -/
def try_marker (blob : List Nat) (ns_pos : Nat) (pat : List Nat) : Option String :=
  match find_pat blob pat ns_pos with
  | none => none
  | some p =>
    match parse_text_region blob (p + pat.length) with
    | none => none
    | some (tlen, tstart) =>
      if 1 ≤ tlen ∧ tlen ≤ 10000 ∧ tstart + tlen ≤ blob.length then
        match utf8_decode ((blob.drop tstart).take tlen) with
        | none => none
        | some cs => marker_accept cs
      else none

/-- Python `str.isalnum` restricted to ASCII (the source's heuristic only
meets ASCII text in practice; the broader Unicode classes are approximated
by `Char.isAlphanum`). -/
def py_isalnum (c : Char) : Bool := c.isAlphanum

/-- Acceptance step of the heuristic fallback path (lines 170–183): require
an alphanumeric character, reject `NS`/`__` prefixes, clean, strip, and
emit only a result of length ≥ 2. -/
def fallback_accept (cs : List Char) : Option String :=
  if cs.any py_isalnum ∧ ¬ (cs.take 2 = ['N', 'S']) ∧ ¬ (cs.take 2 = ['_', '_']) then
    let ct := py_strip (clean_chars cs)
    if 2 ≤ ct.length then some (String.mk ct) else none
  else none

/-- The bounded heuristic scan of `decode_attributed_body` (lines 159–186):
scan up to 100 offsets past the anchor, treating each byte as a tentative
length in `[2, 200]`.  `List.range' s (u - s)` is Python's `range(s, u)`
(empty when `u ≤ s`, also covering Python's negative `len(blob) - 10`). -/
def fallback_scan (blob : List Nat) (ns_pos : Nat) : Option String :=
  let search_start := ns_pos + 8
  let upper := min (search_start + 100) (blob.length - 10)
  (List.range' search_start (upper - search_start)).findSome? fun i =>
    let pl := blob.getD i 0
    if 2 ≤ pl ∧ pl ≤ 200 then
      if i + 1 + pl ≤ blob.length then
        match utf8_decode ((blob.drop (i + 1)).take pl) with
        | none => none
        | some cs => fallback_accept cs
      else none
    else none

/-- `decode_attributed_body` (lines 101–191): anchor on `NSString`, try the
four format markers in order, then the heuristic scan.  The Lean function
is total, reflecting the source's outer `try/except` returning `None`. -/
def decode_attributed_body (blob : List Nat) : Option String :=
  if blob = [] then none
  else
    match find_pat blob nsstring_pat 0 with
    | none => none
    | some ns =>
      match List.findSome? (try_marker blob ns) marker_patterns with
      | some t => some t
      | none => fallback_scan blob ns

/-- `decode_attributed_body` including the `if not blob` guard over a
nullable argument (Python's `None` input). -/
def decode_attributed_body_opt : Option (List Nat) → Option String
  | none => none
  | some blob => decode_attributed_body blob

/-! ## Data model (spec §3) and mapping store -/

/-- One `group_chats` entry of the persisted mapping store:
`{display_name, participants, resolved_display_name?}`. -/
structure GroupChatInfo where
  display_name : String
  participants : List String
  resolved_display_name : Option String
deriving DecidableEq

/-- The persisted mapping store `{phone_to_name, group_chats}` (the
`version` field carries no behaviour and is omitted). -/
structure Mappings where
  phone_to_name : List (String × String)
  group_chats : List (String × GroupChatInfo)
deriving DecidableEq

/-- A `contact_data` record built by `extract_messages` (lines 500–511).
`displayName`/`participants` are optional keys in the source dict; `none`
and `[]` stand for the absent key. -/
structure Contact where
  id : Nat
  name : String
  phone : String
  messageCount : Nat
  isGroupChat : Bool
  displayName : Option String
  participants : List String
deriving DecidableEq

/-- A message record appended by `extract_messages` (lines 518–524). -/
structure Message where
  id : Nat
  contactId : Nat
  content : String
  date : String
  isFromMe : Bool
deriving DecidableEq

/-- The statistics dict of `calculate_statistics` (lines 566–574);
`dateRange` is flattened into its `start`/`end` fields and the average is
taken over `ℚ`, the exact value the source's float approximates. -/
structure Statistics where
  totalMessages : Nat
  messagesSent : Nat
  messagesReceived : Nat
  uniqueContacts : Nat
  avgMessageLength : ℚ
  dateRangeStart : String
  dateRangeEnd : String
  hourlyDistribution : List Nat
deriving DecidableEq

/-- The persisted dataset `{contacts, messages, statistics}`.  The `images`
list is produced and consumed only by the out-of-core attachment pipeline
(spec §1) and is left untouched by `cmd_update`, so it is not modelled. -/
structure Dataset where
  contacts : List Contact
  messages : List Message
  statistics : Statistics
deriving DecidableEq

/-- `get_group_chat_info` (lines 221–231): the stored explicit display name
if truthy, else the stored resolved name (Python `a or b`), plus the
participant list. -/
def get_group_chat_info (chat_id : String) (gc : List (String × GroupChatInfo)) :
    Option String × List String :=
  match dict_get gc chat_id with
  | some info =>
    (if info.display_name ≠ "" then some info.display_name
     else info.resolved_display_name,
     info.participants)
  | none => (none, [])

/-- Python `a or b` on two optional strings (first truthy operand wins;
otherwise the second operand is returned as-is). -/
def py_or_str (a b : Option String) : Option String :=
  if truthyS a then a else b

/-- The per-participant lookup inside `resolve_participant_names`
(imessage_export.py 270–279; identically save_contact_mappings.py 148–157):
direct hit, then normalized digits, `+`-prefixed digits, and last-10-digits
fallbacks. -/
def resolve_one_participant (ptn : List (String × String)) (p : String) :
    Option String :=
  let name := dict_get ptn p
  if truthyS name then name
  else
    let cleaned := p.data.filter Char.isDigit
    let cleaned := if cleaned.length = 10 then '1' :: cleaned else cleaned
    let name1 := py_or_str (dict_get ptn (String.mk cleaned))
      (dict_get ptn ("+" ++ String.mk cleaned))
    if ¬ truthyS name1 ∧ 10 ≤ cleaned.length then
      dict_get ptn (String.mk (last10 cleaned))
    else name1

/-- Per-entry body of `resolve_participant_names` (imessage_export.py
263–287; identically save_contact_mappings.py 139–166): entries with a
truthy explicit display name are skipped; otherwise the truthy resolved
participant names are collected, and a nonempty collection synthesizes
`resolved_display_name` from the first 4 names with a `+N more` suffix. -/
def resolve_entry (ptn : List (String × String)) (info : GroupChatInfo) :
    GroupChatInfo :=
  if info.display_name ≠ "" then info
  else
    let resolved := info.participants.filterMap (fun p =>
      let n := resolve_one_participant ptn p
      if truthyS n then n else none)
    if resolved ≠ [] then
      let base := String.intercalate ", " (resolved.take 4)
      let full :=
        if 4 < resolved.length then
          base ++ " +" ++ toString (resolved.length - 4) ++ " more"
        else base
      { info with resolved_display_name := some full }
    else info

/-- `resolve_participant_names` over the whole `group_chats` dict (the pure
rendering of the source's in-place mutation). -/
def resolve_participant_names (gc : List (String × GroupChatInfo))
    (ptn : List (String × String)) : List (String × GroupChatInfo) :=
  gc.map (fun kv => (kv.1, resolve_entry ptn kv.2))

/-! ## Statistics aggregator (`calculate_statistics`, lines 543–574) -/

/-- Models `datetime.fromisoformat(s).hour` for the `"YYYY-MM-DD HH:MM:SS"`
strings the extraction query produces; every other shape is unparsable
(`none`), standing in for the source's `except: pass`.  (CPython accepts
further ISO-8601 shapes; none occur in this repository's data.) -/
def parse_iso_hour (s : String) : Option Nat :=
  match s.data with
  | [y1, y2, y3, y4, q1, o1, o2, q2, d1, d2, sp, h1, h2, q3, i1, i2, q4, e1, e2] =>
    if ([y1, y2, y3, y4, o1, o2, d1, d2, h1, h2, i1, i2, e1, e2].all Char.isDigit
        ∧ q1 = '-' ∧ q2 = '-' ∧ sp = ' ' ∧ q3 = ':' ∧ q4 = ':') then
      let mo := (o1.toNat - 48) * 10 + (o2.toNat - 48)
      let da := (d1.toNat - 48) * 10 + (d2.toNat - 48)
      let hr := (h1.toNat - 48) * 10 + (h2.toNat - 48)
      let mi := (i1.toNat - 48) * 10 + (i2.toNat - 48)
      let se := (e1.toNat - 48) * 10 + (e2.toNat - 48)
      if 1 ≤ mo ∧ mo ≤ 12 ∧ 1 ≤ da ∧ da ≤ 31 ∧ hr ≤ 23 ∧ mi ≤ 59 ∧ se ≤ 59 then
        some hr
      else none
    else none
  | _ => none

/-- `calculate_statistics` (lines 543–574): counts, 24-bucket hour
histogram (unparsable dates skipped), lexicographic min/max date range over
truthy dates, and average content length over truthy contents (0 when there
are none). -/
def calculate_statistics (messages : List Message) (contacts : List Contact) :
    Statistics :=
  let total := messages.length
  let sent := (messages.filter (fun m => m.isFromMe)).length
  let received := total - sent
  let hourly := messages.foldl (fun acc m =>
      match parse_iso_hour m.date with
      | some h => acc.set h (acc.getD h 0 + 1)
      | none => acc) (List.replicate 24 0)
  let dates := (messages.filter (fun m => m.date ≠ "")).map (fun m => m.date)
  let dstart := match dates with
    | [] => ""
    | d :: rest => rest.foldl (fun a b => if b < a then b else a) d
  let dend := match dates with
    | [] => ""
    | d :: rest => rest.foldl (fun a b => if a < b then b else a) d
  let lengths := (messages.filter (fun m => m.content ≠ "")).map
    (fun m => m.content.length)
  let avg : ℚ := if lengths ≠ [] then (lengths.sum : ℚ) / (lengths.length : ℚ) else 0
  { totalMessages := total, messagesSent := sent, messagesReceived := received,
    uniqueContacts := contacts.length, avgMessageLength := avg,
    dateRangeStart := dstart, dateRangeEnd := dend,
    hourlyDistribution := hourly }

/-! ## Conversation assembler (`extract_messages` row loop, lines 446–541)

The sqlite query itself is an external read-only source (spec §6); the
assembler is modelled as a fold over the returned rows. -/

/-- One raw row of the extraction query (lines 421–439); the unused
`service` column is omitted. -/
structure Row where
  message_id : Nat
  text : Option String
  attributed_body : Option (List Nat)
  is_from_me : Bool
  date : String
  contact_identifier : Option String
  chat_identifier : Option String
  chat_display_name : Option String
deriving DecidableEq

/-- The loop state of `extract_messages` (lines 447–449): the insertion
ordered `contacts` dict, the `messages` list and `contact_id_counter`. -/
structure AsmState where
  contacts : List (String × Contact)
  messages : List Message
  counter : Nat
deriving DecidableEq

/-- Python `str.isdigit` on the already character-filtered identifier
(nonempty and all digits; ASCII approximation as elsewhere). -/
def py_isdigit_str (l : List Char) : Bool :=
  l ≠ [] && l.all Char.isDigit

/-- Contact construction at first sighting of a key (lines 476–513):
display-name precedence for groups and the
resolver / row display name / cleaned phone / raw identifier chain for
individuals. -/
def make_contact (mappings : Mappings) (counter : Nat) (r : Row)
    (is_group : Bool) (key : String) : Contact :=
  let phone :=
    if truthyS r.contact_identifier then Option.getD r.contact_identifier ""
    else if truthyS r.chat_identifier then Option.getD r.chat_identifier ""
    else ""
  if is_group then
    let gi := get_group_chat_info (Option.getD r.chat_identifier "") mappings.group_chats
    let name :=
      if truthyS r.chat_display_name then Option.getD r.chat_display_name ""
      else if truthyS gi.1 then Option.getD r.chat_identifier ""
      else key
    let displayName := if ¬ truthyS r.chat_display_name ∧ truthyS gi.1 then gi.1 else none
    { id := counter, name := name, phone := phone, messageCount := 0,
      isGroupChat := true, displayName := displayName, participants := gi.2 }
  else
    let resolved := IMessageExport.resolve_contact_name r.contact_identifier
      mappings.phone_to_name
    let name :=
      if truthyS resolved then Option.getD resolved ""
      else if truthyS r.chat_display_name then Option.getD r.chat_display_name ""
      else if truthyS r.contact_identifier then
        let ci := Option.getD r.contact_identifier ""
        let stripped := ci.data.filter
          (fun c => !(c = '-' || c = '(' || c = ')' || c = ' '))
        if py_startswith ci "+" ∨ py_isdigit_str stripped then
          IMessageExport.clean_phone_number ci
        else ci
      else key
    { id := counter, name := name, phone := phone, messageCount := 0,
      isGroupChat := false, displayName := none, participants := [] }

/-- `contacts[contact_key]['messageCount'] += 1` (line 516) on the
insertion-ordered dict. -/
def incr_count : List (String × Contact) → String → List (String × Contact)
  | [], _ => []
  | (k, c) :: rest, key =>
    if k = key then (k, { c with messageCount := c.messageCount + 1 }) :: rest
    else (k, c) :: incr_count rest key

/-- One iteration of the row loop of `extract_messages` (lines 452–524):
resolve content (plain text, else the blob decoder), drop contentless rows,
choose the contact key, create the contact at first sighting, bump its
count and append the message. -/
def assemble_step (mappings : Mappings) (st : AsmState) (r : Row) : AsmState :=
  let mc0 := r.text
  let mc := if ¬ truthyS mc0 ∧ truthyB r.attributed_body then
      decode_attributed_body_opt r.attributed_body
    else mc0
  if truthyS mc then
    let content := Option.getD mc ""
    let is_group := truthyS r.chat_identifier &&
      py_startswith (Option.getD r.chat_identifier "") "chat"
    let key :=
      if is_group then Option.getD r.chat_identifier ""
      else if truthyS r.contact_identifier then Option.getD r.contact_identifier ""
      else if truthyS r.chat_identifier then Option.getD r.chat_identifier ""
      else "unknown_" ++ toString r.message_id
    let st1 :=
      if (dict_get st.contacts key).isNone then
        { st with
          contacts := st.contacts ++ [(key, make_contact mappings st.counter r is_group key)],
          counter := st.counter + 1 }
      else st
    let contacts2 := incr_count st1.contacts key
    let cid := match dict_get contacts2 key with
      | some c => c.id
      | none => 0
    { contacts := contacts2,
      messages := st1.messages ++
        [{ id := r.message_id, contactId := cid, content := content,
           date := r.date, isFromMe := r.is_from_me }],
      counter := st1.counter }
  else st

/-- The sort key of line 532: `key=lambda x: x['messageCount'],
reverse=True` as a stable-sort comparator. -/
def by_count_desc (a b : Contact) : Bool := b.messageCount ≤ a.messageCount

/-- The row-processing tail of `extract_messages` (lines 446–541): fold the
rows, sort the contacts by `messageCount` descending (Python's stable sort)
and compute statistics. -/
def extract_messages_rows (mappings : Mappings) (rows : List Row) : Dataset :=
  let st := rows.foldl (assemble_step mappings) ⟨[], [], 1⟩
  let contacts_list := (st.contacts.map (fun kv => kv.2)).mergeSort by_count_desc
  { contacts := contacts_list,
    messages := st.messages,
    statistics := calculate_statistics st.messages contacts_list }

/-! ## Merge engine (`cmd_update`, lines 866–891) -/

/-- The merge step of `cmd_update` (lines 868–891): dedup the new messages
against the prior message-id set, prepend them, append the new contacts
whose run-local id is not already present, and recompute statistics; when
nothing is genuinely new the prior dataset is left untouched.  The
AppleScript enrichment of lines 882–885 consults the external
contact-directory oracle (out of core scope, spec §1) and rewrites only
display names, so it is modelled as the identity. -/
def merge_datasets (existing new_data : Dataset) : Dataset :=
  let existing_ids := existing.messages.map (fun m => m.id)
  let new_messages := new_data.messages.filter
    (fun m => ! decide (m.id ∈ existing_ids))
  if new_messages = [] then existing
  else
    let msgs := new_messages ++ existing.messages
    let existing_contact_ids := existing.contacts.map (fun c => c.id)
    let contacts := existing.contacts ++
      new_data.contacts.filter (fun c => ! decide (c.id ∈ existing_contact_ids))
    { contacts := contacts, messages := msgs,
      statistics := calculate_statistics msgs contacts }

/-! ## Theorems -/

/-- Merging a dataset into itself changes nothing: every id is already
present, so the filtered new-message list is empty and the untouched prior
dataset is returned. -/
lemma merge_datasets_self_eq (p : Dataset) : merge_datasets p p = p := by
  have h : p.messages.filter
      (fun m => ! decide (m.id ∈ p.messages.map (fun mm => mm.id))) = [] := by
    apply List.filter_eq_nil_iff.mpr
    intro m hm
    have hx : m.id ∈ p.messages.map (fun mm => mm.id) :=
      List.mem_map.mpr ⟨m, hm, rfl⟩
    simp [hx]
  simp only [merge_datasets]
  rw [h]
  simp

/-- C1: the merge appends to the prior dataset exactly the new messages
whose id is absent from the prior id set, prepended in front of the prior
messages; consequently merging a dataset into itself twice yields the same
message count as merging it once. -/
theorem c1_merge_dedup_prepend_idempotent :
    (∀ p n : Dataset,
      (merge_datasets p n).messages =
        n.messages.filter
          (fun m => ! decide (m.id ∈ p.messages.map (fun mm => mm.id))) ++
        p.messages) ∧
    (∀ p : Dataset,
      (merge_datasets (merge_datasets p p) p).messages.length =
        (merge_datasets p p).messages.length) := by
  constructor
  · intro p n
    simp only [merge_datasets]
    by_cases h : n.messages.filter
        (fun m => ! decide (m.id ∈ p.messages.map (fun mm => mm.id))) = []
    · rw [if_pos h, h]
      simp
    · rw [if_neg h]
  · intro p
    rw [merge_datasets_self_eq p, merge_datasets_self_eq p]

/-- Modelled from the claim's words (C2), for comparison with
`parse_text_region`: a byte `< 128` is the literal text length with the
text starting at the next byte; a byte with the high bit set and low 7
bits `1` takes the single following byte as length with one further
separator byte before the text; low 7 bits `2` takes the two following
bytes little-endian with one separator byte; any other low-7-bit count
makes this marker inapplicable (`none`, upon which `try_marker` yields
`none` and `List.findSome?` moves to the next marker candidate). -/
def parse_text_region_claim (blob : List Nat) (lp : Nat) : Option (Nat × Nat) :=
  if lp < blob.length then
    let b := blob.getD lp 0
    if b < 0x80 then some (b, lp + 1)
    else if b &&& 0x7F = 1 then
      if lp + 2 < blob.length then some (blob.getD (lp + 1) 0, lp + 3) else none
    else if b &&& 0x7F = 2 then
      if lp + 3 < blob.length then
        some (blob.getD (lp + 1) 0 ||| (blob.getD (lp + 2) 0 <<< 8), lp + 4)
      else none
    else none
  else none

/-- C2: the decoder's length-descriptor interpretation at the byte
immediately after a found format marker agrees, case by case, with the
claim's reading (literal length below 128; 1- or 2-byte trailing lengths
with a separator when the high bit is set; skip on any other low-7-bit
count). -/
theorem c2_length_descriptor_cases (blob : List Nat) (lp : Nat) :
    parse_text_region blob lp = parse_text_region_claim blob lp := by
  simp only [parse_text_region, parse_text_region_claim]
  split_ifs <;> first | rfl | omega

/-- Modelled from the claim's words (C4): strip every non-digit; no digits
left gives the empty string; exactly 10 digits get a leading `1`; 11 digits
beginning with `1` pass through unchanged; any other digit count is left
as-is. -/
def clean_phone_number_claim (s : String) : String :=
  let d := s.data.filter Char.isDigit
  if d = [] then ""
  else if d.length = 10 then String.mk ('1' :: d)
  else if d.length = 11 ∧ d.head? = some '1' then String.mk d
  else String.mk d

/-- C4: the phone normalizer (`save_contact_mappings.clean_phone_number`)
agrees with the claim's case analysis on every input string. -/
theorem c4_phone_normalizer_cases (s : String) :
    SaveContactMappings.clean_phone_number s = clean_phone_number_claim s := by
  simp only [SaveContactMappings.clean_phone_number, clean_phone_number_claim]
  by_cases hs : s = ""
  · subst hs
    simp
  · rw [if_neg hs]
    by_cases hd : s.data.filter Char.isDigit = []
    · rw [if_pos hd, hd]
      simp
    · rw [if_neg hd]
      by_cases h10 : (s.data.filter Char.isDigit).length = 10
      · rw [if_pos h10, if_pos h10]
      · rw [if_neg h10, if_neg h10]
        by_cases h11 : (s.data.filter Char.isDigit).length = 11 ∧
            (s.data.filter Char.isDigit).head? = some '1'
        · rw [if_pos h11]
        · rw [if_neg h11]

/-- First dictionary hit over a list of candidate keys, probed in order. -/
def first_hit (ptn : List (String × String)) : List String → Option String
  | [] => none
  | k :: rest =>
    match dict_get ptn k with
    | some n => some n
    | none => first_hit ptn rest

/-- Modelled from the claim's words (C5, as frozen): probe exactly the four
lookup variants — original input, canonical digits, `+`-prefixed canonical
digits, and (when the canonical digits number at least 10) the last 10
digits — in that order, first hit winning, unresolved otherwise. -/
def resolve_contact_name_claim4 (raw : String) (ptn : List (String × String)) :
    Option String :=
  let d := raw.data.filter Char.isDigit
  let d := if d.length = 10 then '1' :: d else d
  first_hit ptn ([raw, String.mk d, "+" ++ String.mk d] ++
    (if 10 ≤ d.length then [String.mk (last10 d)] else []))

/-- The store of the C5 counterexample: a single entry keyed by a
`+1`-prefixed last-10-digits form. -/
def c5_store : List (String × String) := [("+15551234567", "Bob")]

/-- C5 counterexample: on raw input `"25551234567"` none of the claim's
four lookup variants is a key of the store, so the claim demands
"unresolved" — but the code's fifth variant (`"+1"` + last 10 digits)
matches and the resolver returns `"Bob"`. -/
theorem c5_counterexample :
    IMessageExport.resolve_contact_name (some "25551234567") c5_store =
      some "Bob" ∧
    resolve_contact_name_claim4 "25551234567" c5_store = none := by
  constructor
  · rfl
  · rfl

/-- A key absent from every entry of an association list is not found. -/
lemma dict_get_eq_none_of_ne {β : Type} {d : List (String × β)} {k : String}
    (h : ∀ kv ∈ d, kv.1 ≠ k) : dict_get d k = none := by
  induction d with
  | nil => rfl
  | cons kv rest ih =>
    simp only [dict_get]
    rw [if_neg (h kv (by simp))]
    exact ih (fun q hq => h q (by simp [hq]))

/-- `String.mk` of a nonempty character list is not the empty string. -/
lemma mk_ne_empty_of_ne_nil {l : List Char} (h : l ≠ []) : String.mk l ≠ "" := by
  intro he
  exact h (congrArg String.data he)

/-- Probing a list of truthy (`some`, nonempty) variants coincides with
probing the underlying keys. -/
lemma probe_variants_eq_first_hit (ptn : List (String × String)) :
    ∀ ks : List String, (∀ k ∈ ks, k ≠ "") →
      IMessageExport.probe_variants ptn (ks.map some) = first_hit ptn ks := by
  intro ks
  induction ks with
  | nil => intro _; rfl
  | cons k rest ih =>
    intro h
    simp only [List.map_cons, IMessageExport.probe_variants, first_hit]
    rw [if_neg (h k (by simp))]
    cases hd : dict_get ptn k with
    | some n => rfl
    | none => exact ih (fun q hq => h q (by simp [hq]))

/-- Modelled from the amended claim wording (C5): the resolver probes five
lookup variants — the original input, the canonical digits, the
`+`-prefixed canonical digits, `+1` followed by the last 10 digits (when
the canonical digits number at least 10), and the last 10 digits alone
(same condition) — in that order, first hit winning, unresolved
otherwise. -/
def resolve_contact_name_claim5 (raw : String) (ptn : List (String × String)) :
    Option String :=
  let d := raw.data.filter Char.isDigit
  let d := if d.length = 10 then '1' :: d else d
  first_hit ptn ([raw, String.mk d, "+" ++ String.mk d] ++
    (if 10 ≤ d.length then ["+1" ++ String.mk (last10 d), String.mk (last10 d)]
     else []))

/-- Appending a trailing `none` variant never changes the probe result. -/
lemma probe_variants_append_none (ptn : List (String × String)) :
    ∀ l : List (Option String),
      IMessageExport.probe_variants ptn (l ++ [none]) =
        IMessageExport.probe_variants ptn l := by
  intro l
  induction l with
  | nil => rfl
  | cons v rest ih =>
    cases v with
    | none =>
      simp only [List.cons_append, IMessageExport.probe_variants]
      exact ih
    | some s =>
      simp only [List.cons_append, IMessageExport.probe_variants]
      by_cases hs : s = ""
      · rw [if_pos hs, if_pos hs]
        exact ih
      · rw [if_neg hs, if_neg hs]
        cases hd : dict_get ptn s with
        | some n => rfl
        | none => exact ih

/-- A string with a nonempty prefix appended to anything is nonempty. -/
lemma append_ne_empty_left {p : String} (s : String) (hp : p.data ≠ []) :
    p ++ s ≠ "" := by
  intro he
  have hd : (p ++ s).data = [] := congrArg String.data he
  rw [String.data_append] at hd
  exact hp (List.append_eq_nil.mp hd).1

/-- C5 (amended): for every store whose keys are nonempty and every raw
identifier, the resolver is exactly the first hit over the five lookup
variants in the amended order; and store entry `{"5551234567": "Alice"}`
resolves raw input `"+15551234567"` to `"Alice"`. -/
theorem c5_amended_five_variant_probe :
    (∀ (raw : String) (ptn : List (String × String)),
      (∀ kv ∈ ptn, kv.1 ≠ "") →
      IMessageExport.resolve_contact_name (some raw) ptn =
        resolve_contact_name_claim5 raw ptn) ∧
    IMessageExport.resolve_contact_name (some "+15551234567")
      [("5551234567", "Alice")] = some "Alice" := by
  constructor
  · intro raw ptn hkeys
    have hget0 : dict_get ptn "" = none := dict_get_eq_none_of_ne hkeys
    simp only [IMessageExport.resolve_contact_name, resolve_contact_name_claim5,
      py_str_opt, first_hit]
    cases hdr : dict_get ptn raw with
    | some n => rfl
    | none =>
      simp only [ge_iff_le]
      by_cases hlen :
          10 ≤ (if (raw.data.filter Char.isDigit).length = 10 then
            '1' :: raw.data.filter Char.isDigit
          else raw.data.filter Char.isDigit).length
      · rw [if_pos hlen, if_pos hlen, if_pos hlen]
        have hne : (if (raw.data.filter Char.isDigit).length = 10 then
            '1' :: raw.data.filter Char.isDigit
          else raw.data.filter Char.isDigit) ≠ [] := by
          intro h0
          rw [h0] at hlen
          simp at hlen
        have hlast : last10 (if (raw.data.filter Char.isDigit).length = 10 then
            '1' :: raw.data.filter Char.isDigit
          else raw.data.filter Char.isDigit) ≠ [] := by
          intro h0
          have := congrArg List.length h0
          simp only [last10, List.length_drop, List.length_nil] at this
          omega
        have := probe_variants_eq_first_hit ptn
          [String.mk (if (raw.data.filter Char.isDigit).length = 10 then
              '1' :: raw.data.filter Char.isDigit
            else raw.data.filter Char.isDigit),
           "+" ++ String.mk (if (raw.data.filter Char.isDigit).length = 10 then
              '1' :: raw.data.filter Char.isDigit
            else raw.data.filter Char.isDigit),
           "+1" ++ String.mk (last10 (if (raw.data.filter Char.isDigit).length = 10 then
              '1' :: raw.data.filter Char.isDigit
            else raw.data.filter Char.isDigit)),
           String.mk (last10 (if (raw.data.filter Char.isDigit).length = 10 then
              '1' :: raw.data.filter Char.isDigit
            else raw.data.filter Char.isDigit))]
          (by
            intro k hk
            simp only [List.mem_cons, List.mem_singleton] at hk
            rcases hk with h | h | h | h | h
            · rw [h]; exact mk_ne_empty_of_ne_nil hne
            · rw [h]; exact append_ne_empty_left _ (by simp)
            · rw [h]; exact append_ne_empty_left _ (by simp)
            · rw [h]; exact mk_ne_empty_of_ne_nil hlast
            · exact absurd h (by simp))
        simpa using this
      · rw [if_neg hlen, if_neg hlen, if_neg hlen]
        have h4 : ([some (String.mk (if (raw.data.filter Char.isDigit).length = 10 then
              '1' :: raw.data.filter Char.isDigit
            else raw.data.filter Char.isDigit)),
           some ("+" ++ String.mk (if (raw.data.filter Char.isDigit).length = 10 then
              '1' :: raw.data.filter Char.isDigit
            else raw.data.filter Char.isDigit)),
           none, none] : List (Option String)) =
          (([some (String.mk (if (raw.data.filter Char.isDigit).length = 10 then
              '1' :: raw.data.filter Char.isDigit
            else raw.data.filter Char.isDigit)),
           some ("+" ++ String.mk (if (raw.data.filter Char.isDigit).length = 10 then
              '1' :: raw.data.filter Char.isDigit
            else raw.data.filter Char.isDigit))] ++ [none]) ++ [none]) := by simp
        rw [h4, probe_variants_append_none, probe_variants_append_none]
        by_cases hnil : (if (raw.data.filter Char.isDigit).length = 10 then
            '1' :: raw.data.filter Char.isDigit
          else raw.data.filter Char.isDigit) = []
        · have hmk : String.mk (if (raw.data.filter Char.isDigit).length = 10 then
              '1' :: raw.data.filter Char.isDigit
            else raw.data.filter Char.isDigit) = "" := by rw [hnil]
          rw [hmk]
          cases hp : dict_get ptn "+" with
          | some n =>
            simp [IMessageExport.probe_variants, first_hit, hget0, hp]
          | none =>
            simp [IMessageExport.probe_variants, first_hit, hget0, hp]
        · have := probe_variants_eq_first_hit ptn
            [String.mk (if (raw.data.filter Char.isDigit).length = 10 then
                '1' :: raw.data.filter Char.isDigit
              else raw.data.filter Char.isDigit),
             "+" ++ String.mk (if (raw.data.filter Char.isDigit).length = 10 then
                '1' :: raw.data.filter Char.isDigit
              else raw.data.filter Char.isDigit)]
            (by
              intro k hk
              simp only [List.mem_cons, List.mem_singleton] at hk
              rcases hk with h | h | h
              · rw [h]; exact mk_ne_empty_of_ne_nil hnil
              · rw [h]; exact append_ne_empty_left _ (by simp)
              · exact absurd h (by simp))
          simpa using this
  · rfl

/-- Witness for C5 (amended): the probe-order equation instantiated at a
concrete store and raw identifier. -/
theorem c5_amended_witness :
    (∀ kv ∈ c5_store, kv.1 ≠ "") ∧
    IMessageExport.resolve_contact_name (some "25551234567") c5_store =
      resolve_contact_name_claim5 "25551234567" c5_store :=
  ⟨by decide, c5_amended_five_variant_probe.1 "25551234567" c5_store (by decide)⟩

/-- A text accepted by the marker path is nonempty. -/
lemma marker_accept_ne_empty {cs : List Char} {t : String}
    (h : marker_accept cs = some t) : t ≠ "" := by
  unfold marker_accept at h
  by_cases hl : 0 < (py_strip (clean_chars cs)).length
  · rw [if_pos hl] at h
    cases h
    exact mk_ne_empty_of_ne_nil (by
      intro h0
      rw [h0] at hl
      simp at hl)
  · rw [if_neg hl] at h
    cases h

/-- A text accepted by the heuristic fallback path is nonempty. -/
lemma fallback_accept_ne_empty {cs : List Char} {t : String}
    (h : fallback_accept cs = some t) : t ≠ "" := by
  unfold fallback_accept at h
  by_cases hc : cs.any py_isalnum ∧ ¬ (cs.take 2 = ['N', 'S']) ∧
      ¬ (cs.take 2 = ['_', '_'])
  · rw [if_pos hc] at h
    by_cases hl : 2 ≤ (py_strip (clean_chars cs)).length
    · rw [if_pos hl] at h
      cases h
      exact mk_ne_empty_of_ne_nil (by
        intro h0
        rw [h0] at hl
        simp at hl)
    · rw [if_neg hl] at h
      cases h
  · rw [if_neg hc] at h
    cases h

/-- A text produced by one marker iteration is nonempty. -/
lemma try_marker_ne_empty {blob : List Nat} {ns : Nat} {pat : List Nat}
    {t : String} (h : try_marker blob ns pat = some t) : t ≠ "" := by
  unfold try_marker at h
  split at h
  · cases h
  · split at h
    · cases h
    · split at h
      · split at h
        · cases h
        · exact marker_accept_ne_empty h
      · cases h

/-- A text produced by the fallback scan is nonempty. -/
lemma fallback_scan_ne_empty {blob : List Nat} {ns : Nat} {t : String}
    (h : fallback_scan blob ns = some t) : t ≠ "" := by
  unfold fallback_scan at h
  obtain ⟨i, _, hi⟩ := List.exists_of_findSome?_eq_some h
  dsimp only at hi
  split at hi
  · split at hi
    · split at hi
      · cases hi
      · exact fallback_accept_ne_empty hi
    · cases hi
  · cases hi

/-- C3: the blob text decoder is a total function returning either a
(nonempty) text string or the "undecodable" outcome `none` — the embedding
itself is total, standing for the source's outer `try/except` — and a null
or empty input yields "undecodable" immediately. -/
theorem c3_decoder_total_never_raises :
    decode_attributed_body_opt none = none ∧
    decode_attributed_body [] = none ∧
    ∀ blob : List Nat, decode_attributed_body blob = none ∨
      ∃ t, decode_attributed_body blob = some t ∧ t ≠ "" := by
  refine ⟨rfl, rfl, ?_⟩
  intro blob
  unfold decode_attributed_body
  split
  · exact Or.inl rfl
  · split
    · exact Or.inl rfl
    · split
      · next t heq =>
          refine Or.inr ⟨t, rfl, ?_⟩
          obtain ⟨pat, _, hpat⟩ := List.exists_of_findSome?_eq_some heq
          exact try_marker_ne_empty hpat
      · cases hf : fallback_scan blob ‹Nat› with
        | none => exact Or.inl rfl
        | some t => exact Or.inr ⟨t, rfl, fallback_scan_ne_empty hf⟩

/-- Modelled from the claim's words (C9): a character survives exactly when
its code point is at least 32 or it is one of the exempt `\n`, `\t`,
`\r`. -/
def keep_char (c : Char) : Bool :=
  decide (32 ≤ c.toNat) || c = '\n' || c = '\t' || c = '\r'

/-- C9: the decoder's cleaning loop truncates at the first character with
code point below 32 other than the retained `\n`, `\t`, `\r` (it is
`takeWhile keep_char`); the decoded candidate `"hi\x00world"` sanitizes to
`"hi"`; and the marker acceptance step emits exactly the trimmed cleaned
text, reporting `none` (undecodable) when it is empty. -/
theorem c9_sanitize_truncate_trim :
    (∀ cs : List Char, clean_chars cs = cs.takeWhile keep_char) ∧
    String.mk (py_strip (clean_chars "hi\x00world".data)) = "hi" ∧
    (∀ cs : List Char, marker_accept cs =
      if py_strip (clean_chars cs) = [] then none
      else some (String.mk (py_strip (clean_chars cs)))) := by
  refine ⟨?_, by decide, ?_⟩
  · intro cs
    induction cs with
    | nil => rfl
    | cons c rest ih =>
      by_cases h : 32 ≤ c.toNat ∨ c = '\n' ∨ c = '\t' ∨ c = '\r'
      · have hk : keep_char c = true := by
          simp only [keep_char, Bool.or_eq_true, decide_eq_true_eq]
          tauto
        simp only [clean_chars, if_pos h, List.takeWhile_cons, hk, if_true, ih]
      · have h1 : ¬ 32 ≤ c.toNat := fun hx => h (Or.inl hx)
        have h2 : c ≠ '\n' := fun hx => h (Or.inr (Or.inl hx))
        have h3 : c ≠ '\t' := fun hx => h (Or.inr (Or.inr (Or.inl hx)))
        have h4 : c ≠ '\r' := fun hx => h (Or.inr (Or.inr (Or.inr hx)))
        have hk : keep_char c = false := by
          simp [keep_char, h1, h2, h3, h4]
        have hlt : c.toNat < 32 := by omega
        simp only [clean_chars, if_neg h, if_pos hlt, List.takeWhile_cons, hk]
        simp
  · intro cs
    unfold marker_accept
    by_cases h : py_strip (clean_chars cs) = []
    · rw [if_neg (by simp [h]), if_pos h]
    · rw [if_pos (List.length_pos.mpr h), if_neg h]

/-- C8: whenever the merge admits at least one genuinely new message (the
only case in which `cmd_update` produces a merged dataset), the resulting
statistics are those recomputed by `calculate_statistics` over the full
merged message and contact lists — not the statistics field of either
input. -/
theorem c8_statistics_recomputed (p n : Dataset)
    (h : n.messages.filter
      (fun m => ! decide (m.id ∈ p.messages.map (fun mm => mm.id))) ≠ []) :
    (merge_datasets p n).statistics =
      calculate_statistics (merge_datasets p n).messages
        (merge_datasets p n).contacts := by
  simp only [merge_datasets]
  rw [if_neg h]

/-- A placeholder statistics record for concrete datasets (its values are
irrelevant: the claims under test never read it). -/
def stats0 : Statistics :=
  { totalMessages := 0, messagesSent := 0, messagesReceived := 0,
    uniqueContacts := 0, avgMessageLength := 0,
    dateRangeStart := "", dateRangeEnd := "",
    hourlyDistribution := List.replicate 24 0 }

/-- A minimal individual contact with a given id and message count. -/
def mk_contact (i cnt : Nat) : Contact :=
  { id := i, name := "c", phone := "p", messageCount := cnt,
    isGroupChat := false, displayName := none, participants := [] }

/-- A minimal message with a given id and contact reference. -/
def mk_msg (i cid : Nat) : Message :=
  { id := i, contactId := cid, content := "x", date := "", isFromMe := false }

/-- A prior dataset: one contact (id 1) with one message. -/
def ds_prior : Dataset :=
  { contacts := [mk_contact 1 1], messages := [mk_msg 1 1],
    statistics := stats0 }

/-- A new dataset: one contact (id 2, count 5) with one new message. -/
def ds_new : Dataset :=
  { contacts := [mk_contact 2 5], messages := [mk_msg 2 2],
    statistics := stats0 }

/-- Witness for C8: the recomputation equation instantiated at concrete
datasets with a genuinely new message. -/
theorem c8_statistics_recomputed_witness :
    (ds_new.messages.filter
      (fun m => ! decide (m.id ∈ ds_prior.messages.map (fun mm => mm.id))) ≠ []) ∧
    (merge_datasets ds_prior ds_new).statistics =
      calculate_statistics (merge_datasets ds_prior ds_new).messages
        (merge_datasets ds_prior ds_new).contacts :=
  ⟨by decide, c8_statistics_recomputed ds_prior ds_new (by decide)⟩

/-- The spec's ordering invariant: contacts sorted by `messageCount`
descending. -/
def sorted_by_count_desc (l : List Contact) : Prop :=
  l.Pairwise (fun a b => b.messageCount ≤ a.messageCount)

/-- C6 counterexample: merging a new dataset whose (new) contact has a
higher message count than the prior contact appends it at the end, leaving
the merged contacts list unsorted — the merge path never re-sorts. -/
theorem c6_counterexample_merge_not_sorted :
    ¬ sorted_by_count_desc (merge_datasets ds_prior ds_new).contacts := by
  unfold sorted_by_count_desc
  decide

/-- C6 (amended): after every assembly run the contacts list is sorted by
`messageCount` descending; the merge leaves the prior contacts in place and
appends the genuinely new contacts at the end without re-sorting. -/
theorem c6_amended_sorted_after_assembly_only :
    (∀ (mp : Mappings) (rows : List Row),
      sorted_by_count_desc (extract_messages_rows mp rows).contacts) ∧
    (∀ p n : Dataset, (merge_datasets p n).contacts =
      if n.messages.filter
          (fun m => ! decide (m.id ∈ p.messages.map (fun mm => mm.id))) = []
      then p.contacts
      else p.contacts ++ n.contacts.filter
        (fun c => ! decide (c.id ∈ p.contacts.map (fun cc => cc.id)))) := by
  constructor
  · intro mp rows
    unfold sorted_by_count_desc
    simp only [extract_messages_rows]
    have hs := @List.sorted_mergeSort Contact by_count_desc
      (fun a b c hab hbc => by
        simp only [by_count_desc, decide_eq_true_eq] at hab hbc ⊢
        omega)
      (fun a b => by
        simp only [by_count_desc, Bool.or_eq_true, decide_eq_true_eq]
        omega)
      ((rows.foldl (assemble_step mp) ⟨[], [], 1⟩).contacts.map (fun kv => kv.2))
    exact hs.imp (fun hab => by
      simpa only [by_count_desc, decide_eq_true_eq] using hab)
  · intro p n
    simp only [merge_datasets]
    by_cases h : n.messages.filter
        (fun m => ! decide (m.id ∈ p.messages.map (fun mm => mm.id))) = []
    · rw [if_pos h, if_pos h]
    · rw [if_neg h, if_neg h]

/-- Modelled from the claim's words (C10): the synthesized group display
name joins the first at most 4 resolved names with a comma, appending a
`+N more` suffix exactly when more than 4 resolved, with N the number
resolved minus 4. -/
def group_display_name_claim (names : List String) : String :=
  String.intercalate ", " (names.take 4) ++
    (if 4 < names.length then " +" ++ toString (names.length - 4) ++ " more"
     else "")

/-- C10: for every group entry without an explicit display name, the
synthesizer sets `resolved_display_name` to the claim's join of resolved
participant names when at least one resolves, and leaves the entry
untouched (no synthesized name) when none resolve. -/
theorem c10_group_name_synthesis (ptn : List (String × String))
    (info : GroupChatInfo) (h : info.display_name = "") :
    (resolve_entry ptn info).resolved_display_name =
      (let names := info.participants.filterMap (fun p =>
        let n := resolve_one_participant ptn p
        if truthyS n then n else none)
       if names = [] then info.resolved_display_name
       else some (group_display_name_claim names)) := by
  simp only [resolve_entry, group_display_name_claim]
  rw [if_neg (by simp [h])]
  by_cases hn : info.participants.filterMap (fun p =>
      let n := resolve_one_participant ptn p
      if truthyS n then n else none) = []
  · rw [if_neg (by simpa using hn), if_pos hn]
  · rw [if_pos hn, if_neg hn]
    by_cases h4 : 4 < (info.participants.filterMap (fun p =>
        let n := resolve_one_participant ptn p
        if truthyS n then n else none)).length
    · rw [if_pos h4, if_pos h4]
      simp [String.append_assoc]
    · rw [if_neg h4, if_neg h4]
      simp

/-- The store and group entry of the C10 witness. -/
def c10_ptn : List (String × String) := [("5551234567", "Alice")]

/-- A group entry without explicit display name and with one resolvable
participant. -/
def c10_info : GroupChatInfo :=
  { display_name := "", participants := ["+15551234567"],
    resolved_display_name := none }

/-- Witness for C10 at a concrete store and group entry. -/
theorem c10_group_name_synthesis_witness :
    c10_info.display_name = "" ∧
    (resolve_entry c10_ptn c10_info).resolved_display_name =
      (let names := c10_info.participants.filterMap (fun p =>
        let n := resolve_one_participant c10_ptn p
        if truthyS n then n else none)
       if names = [] then c10_info.resolved_display_name
       else some (group_display_name_claim names)) :=
  ⟨rfl, c10_group_name_synthesis c10_ptn c10_info rfl⟩

/-- A new dataset whose assembly reuses run-local contact id 1 for a
message that is genuinely new. -/
def c7_new : Dataset :=
  { contacts := [mk_contact 1 1], messages := [mk_msg 2 1],
    statistics := stats0 }

/-- C7 counterexample: after merging, the contact with id 1 still carries
`messageCount = 1` although two merged messages reference it — the merge
path never recomputes per-contact counts. -/
theorem c7_counterexample_merge_stale_counts :
    ∃ c ∈ (merge_datasets ds_prior c7_new).contacts,
      c.messageCount ≠ ((merge_datasets ds_prior c7_new).messages.filter
        (fun m => m.contactId = c.id)).length := by
  decide

/-- A key found nowhere in the first block is resolved in the middle of an
append-cons association list. -/
lemma dict_get_append_cons {β : Type} {l1 : List (String × β)} {key : String}
    {c : β} (l2 : List (String × β)) (h : dict_get l1 key = none) :
    dict_get (l1 ++ (key, c) :: l2) key = some c := by
  induction l1 with
  | nil => simp [dict_get]
  | cons kv rest ih =>
    simp only [dict_get] at h
    by_cases hk : kv.1 = key
    · rw [if_pos hk] at h; cases h
    · rw [if_neg hk] at h
      simp only [List.cons_append, dict_get]
      rw [if_neg hk]
      exact ih h

/-- Incrementing an absent key's count touches only the appended fresh
entry. -/
lemma incr_count_append_of_none {l : List (String × Contact)} {key : String}
    {c : Contact} (h : dict_get l key = none) :
    incr_count (l ++ [(key, c)]) key =
      l ++ [(key, { c with messageCount := c.messageCount + 1 })] := by
  induction l with
  | nil => simp [incr_count]
  | cons kv rest ih =>
    simp only [dict_get] at h
    by_cases hk : kv.1 = key
    · rw [if_pos hk] at h; cases h
    · rw [if_neg hk] at h
      simp only [List.cons_append, incr_count, List.append_eq]
      rw [if_neg hk, ih h]

/-- A found key splits the association list around its first occurrence. -/
lemma dict_get_some_split {l : List (String × Contact)} {key : String}
    {c : Contact} (h : dict_get l key = some c) :
    ∃ l1 l2, l = l1 ++ (key, c) :: l2 ∧ dict_get l1 key = none := by
  induction l with
  | nil => cases h
  | cons kv rest ih =>
    simp only [dict_get] at h
    by_cases hk : kv.1 = key
    · rw [if_pos hk] at h
      cases h
      exact ⟨[], rest, by
        simp only [List.nil_append]
        rw [← hk], rfl⟩
    · rw [if_neg hk] at h
      obtain ⟨l1, l2, hdec, hnone⟩ := ih h
      refine ⟨kv :: l1, l2, by rw [List.cons_append, hdec], ?_⟩
      simp only [dict_get]
      rw [if_neg hk]
      exact hnone

/-- Incrementing a key present after a key-free prefix rewrites exactly the
first matching entry. -/
lemma incr_count_of_split (l1 l2 : List (String × Contact)) (key : String)
    (c : Contact) (h : dict_get l1 key = none) :
    incr_count (l1 ++ (key, c) :: l2) key =
      l1 ++ (key, { c with messageCount := c.messageCount + 1 }) :: l2 := by
  induction l1 with
  | nil => simp [incr_count]
  | cons kv rest ih =>
    simp only [dict_get] at h
    by_cases hk : kv.1 = key
    · rw [if_pos hk] at h; cases h
    · rw [if_neg hk] at h
      simp only [List.cons_append, incr_count, List.append_eq]
      rw [if_neg hk, ih h]

/-- The loop invariant of the `extract_messages` row loop: contact ids lie
below the counter and are pairwise distinct, every accumulated message
references a present contact id, and every contact's count equals the
number of accumulated messages referencing it. -/
def AsmInv (st : AsmState) : Prop :=
  (∀ pr ∈ st.contacts, pr.2.id < st.counter) ∧
  (st.contacts.map (fun pr => pr.2.id)).Nodup ∧
  (∀ m ∈ st.messages, ∃ pr ∈ st.contacts, pr.2.id = m.contactId) ∧
  (∀ pr ∈ st.contacts, pr.2.messageCount =
    (st.messages.filter (fun m => m.contactId = pr.2.id)).length)

/-- A freshly created contact carries the current counter as id. -/
lemma make_contact_id (mp : Mappings) (cnt : Nat) (r : Row) (g : Bool)
    (key : String) : (make_contact mp cnt r g key).id = cnt := by
  simp only [make_contact]
  split_ifs <;> rfl

/-- A freshly created contact starts with message count 0. -/
lemma make_contact_messageCount (mp : Mappings) (cnt : Nat) (r : Row)
    (g : Bool) (key : String) :
    (make_contact mp cnt r g key).messageCount = 0 := by
  simp only [make_contact]
  split_ifs <;> rfl

/-- Invariant preservation through the shared tail of one accepted row of
`assemble_step`: possible contact creation, count bump and message
append (stated for an arbitrary fresh contact carrying the counter as id
and count 0, which `make_contact` satisfies). -/
lemma step_core_inv (st : AsmState) (key : String) (c0 : Contact)
    (mid : Nat) (content dt : String) (ifm : Bool)
    (hid : c0.id = st.counter) (hcnt : c0.messageCount = 0)
    (h : AsmInv st) :
    AsmInv
      (let st1 :=
        if (dict_get st.contacts key).isNone then
          { st with contacts := st.contacts ++ [(key, c0)],
                    counter := st.counter + 1 }
        else st
       let contacts2 := incr_count st1.contacts key
       let cid := match dict_get contacts2 key with
         | some c => c.id
         | none => 0
       { contacts := contacts2,
         messages := st1.messages ++
           [{ id := mid, contactId := cid, content := content, date := dt,
              isFromMe := ifm }],
         counter := st1.counter }) := by
  obtain ⟨hA, hB, hC, hD⟩ := h
  cases hdg : dict_get st.contacts key with
  | none =>
    have h1 : incr_count (st.contacts ++ [(key, c0)]) key =
        st.contacts ++ [(key, { c0 with messageCount := c0.messageCount + 1 })] :=
      incr_count_append_of_none hdg
    have h2 : dict_get (st.contacts ++
        [(key, { c0 with messageCount := c0.messageCount + 1 })]) key =
        some { c0 with messageCount := c0.messageCount + 1 } :=
      dict_get_append_cons [] hdg
    simp only [hdg, Option.isNone_none, if_true, h1, h2]
    refine ⟨?_, ?_, ?_, ?_⟩
    · intro pr hpr
      rcases List.mem_append.mp hpr with hl | hr
      · have := hA pr hl
        simp only []
        omega
      · have hpr2 : pr = (key, { c0 with messageCount := c0.messageCount + 1 }) :=
          List.mem_singleton.mp hr
        subst hpr2
        simp only []
        omega
    · simp only [List.map_append, List.map_cons, List.map_nil]
      rw [List.nodup_append]
      refine ⟨hB, by simp, ?_⟩
      intro a ha
      have : ∃ pr ∈ st.contacts, pr.2.id = a := by
        simpa using List.mem_map.mp ha
      obtain ⟨pr, hpr, hpra⟩ := this
      have := hA pr hpr
      simp only [List.mem_singleton]
      intro hcon
      rw [hcon] at hpra
      omega
    · intro m hm
      rcases List.mem_append.mp hm with hl | hr
      · obtain ⟨pr, hpr, hpr2⟩ := hC m hl
        exact ⟨pr, List.mem_append_left _ hpr, hpr2⟩
      · have hm2 := List.mem_singleton.mp hr
        subst hm2
        refine ⟨(key, { c0 with messageCount := c0.messageCount + 1 }),
          List.mem_append_right _ (by simp), ?_⟩
        simp only []
    · intro pr hpr
      rcases List.mem_append.mp hpr with hl | hr
      · have hcount := hD pr hl
        have hne : ¬ c0.id = pr.2.id := by
          have := hA pr hl
          omega
        rw [List.filter_append]
        simp only [List.filter_cons, List.filter_nil]
        rw [if_neg (by simpa using hne)]
        simpa using hcount
      · have hpr2 : pr = (key, { c0 with messageCount := c0.messageCount + 1 }) :=
          List.mem_singleton.mp hr
        subst hpr2
        rw [List.filter_append]
        have hfilter : st.messages.filter
            (fun m => m.contactId =
              (key, { c0 with messageCount := c0.messageCount + 1 }).2.id) = [] := by
          apply List.filter_eq_nil_iff.mpr
          intro m hm
          obtain ⟨q, hq, hq2⟩ := hC m hm
          have := hA q hq
          simp only [decide_eq_true_eq]
          intro hcon
          rw [hcon] at hq2
          omega
        rw [hfilter]
        simp [hcnt, hid]
  | some c =>
    obtain ⟨l1, l2, hdec, hl1⟩ := dict_get_some_split hdg
    have h1 : incr_count st.contacts key =
        l1 ++ (key, { c with messageCount := c.messageCount + 1 }) :: l2 := by
      rw [hdec]
      exact incr_count_of_split l1 l2 key c hl1
    have h2 : dict_get (l1 ++
        (key, { c with messageCount := c.messageCount + 1 }) :: l2) key =
        some { c with messageCount := c.messageCount + 1 } :=
      dict_get_append_cons l2 hl1
    have hmemc : (key, c) ∈ st.contacts := by
      rw [hdec]
      exact List.mem_append_right _ (List.mem_cons_self _ _)
    have hcid_lt : c.id < st.counter := hA (key, c) hmemc
    have hidsets : (l1 ++ (key, { c with messageCount := c.messageCount + 1 })
        :: l2).map (fun pr => pr.2.id) =
        st.contacts.map (fun pr => pr.2.id) := by
      rw [hdec]
      simp
    have hnd := hB
    rw [hdec] at hnd
    simp only [List.map_append, List.map_cons] at hnd
    rw [List.nodup_append] at hnd
    obtain ⟨hnd1, hnd2, hdisj⟩ := hnd
    have hnotl1 : c.id ∉ l1.map (fun pr => pr.2.id) := by
      intro hmem
      exact hdisj hmem (List.mem_cons_self _ _)
    have hnotl2 : c.id ∉ l2.map (fun pr => pr.2.id) :=
      (List.nodup_cons.mp hnd2).1
    simp only [Option.isNone_some, Bool.false_eq_true, if_false, h1, h2]
    refine ⟨?_, ?_, ?_, ?_⟩
    · intro pr hpr
      rcases List.mem_append.mp hpr with hl | hr
      · exact hA pr (by rw [hdec]; exact List.mem_append_left _ hl)
      · rcases List.mem_cons.mp hr with heq | htl
        · subst heq
          simpa using hcid_lt
        · exact hA pr (by
            rw [hdec]
            exact List.mem_append_right _ (List.mem_cons_of_mem _ htl))
    · rw [hidsets]
      exact hB
    · intro m hm
      rcases List.mem_append.mp hm with hl | hr
      · obtain ⟨pr, hpr, hpr2⟩ := hC m hl
        rw [hdec] at hpr
        rcases List.mem_append.mp hpr with hq | hq
        · exact ⟨pr, List.mem_append_left _ hq, hpr2⟩
        · rcases List.mem_cons.mp hq with heq | htl
          · refine ⟨(key, { c with messageCount := c.messageCount + 1 }),
              List.mem_append_right _ (List.mem_cons_self _ _), ?_⟩
            rw [heq] at hpr2
            simpa using hpr2
          · exact ⟨pr, List.mem_append_right _ (List.mem_cons_of_mem _ htl), hpr2⟩
      · have hm2 := List.mem_singleton.mp hr
        subst hm2
        exact ⟨(key, { c with messageCount := c.messageCount + 1 }),
          List.mem_append_right _ (List.mem_cons_self _ _), by simp⟩
    · intro pr hpr
      rcases List.mem_append.mp hpr with hl | hr
      · have hmem : pr ∈ st.contacts := by
          rw [hdec]; exact List.mem_append_left _ hl
        have hcount := hD pr hmem
        have hne : c.id ≠ pr.2.id := by
          intro hcon
          exact hnotl1 (hcon ▸ List.mem_map.mpr ⟨pr, hl, rfl⟩)
        rw [List.filter_append]
        simp only [List.filter_cons, List.filter_nil]
        rw [if_neg (by simpa using hne)]
        simpa using hcount
      · rcases List.mem_cons.mp hr with heq | htl
        · subst heq
          have hcount := hD (key, c) hmemc
          rw [List.filter_append]
          simp only [List.filter_cons, List.filter_nil]
          rw [if_pos (by simp)]
          simp only [List.length_append, List.length_cons, List.length_nil]
          simpa using hcount
        · have hmem : pr ∈ st.contacts := by
            rw [hdec]
            exact List.mem_append_right _ (List.mem_cons_of_mem _ htl)
          have hcount := hD pr hmem
          have hne : c.id ≠ pr.2.id := by
            intro hcon
            exact hnotl2 (hcon ▸ List.mem_map.mpr ⟨pr, htl, rfl⟩)
          rw [List.filter_append]
          simp only [List.filter_cons, List.filter_nil]
          rw [if_neg (by simpa using hne)]
          simpa using hcount

/-- One row of `assemble_step` preserves the invariant: a dropped row keeps
the state, an accepted row goes through the shared creation/bump tail. -/
lemma assemble_step_inv (mp : Mappings) (r : Row) {st : AsmState}
    (h : AsmInv st) : AsmInv (assemble_step mp st r) := by
  simp only [assemble_step]
  by_cases hmc : truthyS (if ¬ truthyS r.text = true ∧
      truthyB r.attributed_body = true then
      decode_attributed_body_opt r.attributed_body else r.text) = true
  · rw [if_pos hmc]
    exact step_core_inv st _ _ _ _ _ _ (make_contact_id _ _ _ _ _)
      (make_contact_messageCount _ _ _ _ _) h
  · rw [if_neg hmc]
    exact h

/-- The invariant holds after folding any row sequence from the initial
state of `extract_messages`. -/
lemma asm_inv_extract (mp : Mappings) (rows : List Row) :
    AsmInv (rows.foldl (assemble_step mp) ⟨[], [], 1⟩) := by
  have base : AsmInv ⟨[], [], 1⟩ := by
    refine ⟨?_, ?_, ?_, ?_⟩ <;> simp
  have step : ∀ (rows2 : List Row) (st : AsmState), AsmInv st →
      AsmInv (rows2.foldl (assemble_step mp) st) := by
    intro rows2
    induction rows2 with
    | nil => intro st h; exact h
    | cons r rest ih => intro st h; exact ih _ (assemble_step_inv mp r h)
  exact step rows _ base

/-- Distinct ids make the contact referenced by an id unique. -/
lemma unique_by_id {l : List Contact}
    (hnd : (l.map (fun c => c.id)).Nodup) {mid : Nat}
    (hex : ∃ c ∈ l, c.id = mid) : ∃! c, c ∈ l ∧ c.id = mid := by
  obtain ⟨c, hc, hcid⟩ := hex
  refine ⟨c, ⟨hc, hcid⟩, ?_⟩
  rintro c2 ⟨hc2, hc2id⟩
  exact List.inj_on_of_nodup_map hnd hc2 hc (by rw [hc2id, hcid])

/-- C7 (amended): every dataset produced by assembly satisfies the full
invariant — each message references exactly one contact by id and each
contact's `messageCount` equals the number of messages referencing it;
a dataset produced by merge (from inputs with distinct contact ids whose
messages reference present contacts) still has each message referencing
exactly one contact, but the merge carries contact counts over unchanged,
so the count equation may fail there (see the counterexample). -/
theorem c7_amended_reference_and_counts :
    (∀ (mp : Mappings) (rows : List Row),
      (∀ m ∈ (extract_messages_rows mp rows).messages,
        ∃! c, c ∈ (extract_messages_rows mp rows).contacts ∧
          c.id = m.contactId) ∧
      (∀ c ∈ (extract_messages_rows mp rows).contacts,
        c.messageCount = ((extract_messages_rows mp rows).messages.filter
          (fun m => m.contactId = c.id)).length)) ∧
    (∀ p n : Dataset,
      (p.contacts.map (fun c => c.id)).Nodup →
      (n.contacts.map (fun c => c.id)).Nodup →
      (∀ m ∈ p.messages, ∃ c ∈ p.contacts, c.id = m.contactId) →
      (∀ m ∈ n.messages, ∃ c ∈ n.contacts, c.id = m.contactId) →
      ∀ m ∈ (merge_datasets p n).messages,
        ∃! c, c ∈ (merge_datasets p n).contacts ∧ c.id = m.contactId) := by
  constructor
  · intro mp rows
    obtain ⟨hA, hB, hC, hD⟩ := asm_inv_extract mp rows
    have hperm := List.mergeSort_perm
      ((rows.foldl (assemble_step mp) ⟨[], [], 1⟩).contacts.map
        (fun kv => kv.2)) by_count_desc
    have hndsorted : ((((rows.foldl (assemble_step mp)
        ⟨[], [], 1⟩).contacts.map (fun kv => kv.2)).mergeSort
          by_count_desc).map (fun c => c.id)).Nodup := by
      have hmapeq : (((rows.foldl (assemble_step mp) ⟨[], [], 1⟩).contacts.map
          (fun kv => kv.2)).map (fun c => c.id)) =
          (rows.foldl (assemble_step mp) ⟨[], [], 1⟩).contacts.map
            (fun pr => pr.2.id) := by
        rw [List.map_map]
        rfl
      refine ((hperm.map (fun c => c.id)).nodup_iff).mpr ?_
      rw [hmapeq]
      exact hB
    constructor
    · intro m hm
      simp only [extract_messages_rows] at hm ⊢
      obtain ⟨pr, hpr, hpr2⟩ := hC m hm
      exact unique_by_id hndsorted ⟨pr.2,
        hperm.mem_iff.mpr (List.mem_map.mpr ⟨pr, hpr, rfl⟩), hpr2⟩
    · intro c hc
      simp only [extract_messages_rows] at hc ⊢
      obtain ⟨pr, hpr, hpr2⟩ := List.mem_map.mp (hperm.mem_iff.mp hc)
      subst hpr2
      exact hD pr hpr
  · intro p n hndp hndn hrefp hrefn m hm
    simp only [merge_datasets] at hm ⊢
    by_cases hnew : n.messages.filter
        (fun m => ! decide (m.id ∈ p.messages.map (fun mm => mm.id))) = []
    · rw [if_pos hnew] at hm ⊢
      exact unique_by_id hndp (hrefp m hm)
    · rw [if_neg hnew] at hm ⊢
      have hndm : ((p.contacts ++ n.contacts.filter
          (fun c => ! decide (c.id ∈ p.contacts.map (fun cc => cc.id)))).map
          (fun c => c.id)).Nodup := by
        rw [List.map_append, List.nodup_append]
        refine ⟨hndp, ?_, ?_⟩
        · have hsub : (n.contacts.filter
              (fun c => ! decide (c.id ∈ p.contacts.map
                (fun cc => cc.id)))).Sublist n.contacts :=
            List.filter_sublist _
          exact (hsub.map (fun c => c.id)).nodup hndn
        · intro a ha hb
          obtain ⟨c2, hc2, hc2a⟩ := List.mem_map.mp hb
          have hcond := (List.mem_filter.mp hc2).2
          simp only [Bool.not_eq_eq_eq_not, Bool.not_true,
            decide_eq_false_iff_not] at hcond
          rw [hc2a] at hcond
          exact hcond ha
      rcases List.mem_append.mp hm with hnewm | hpm
      · have hmn : m ∈ n.messages := List.mem_of_mem_filter hnewm
        obtain ⟨c, hc, hcid⟩ := hrefn m hmn
        by_cases hcp : c.id ∈ p.contacts.map (fun cc => cc.id)
        · obtain ⟨cp, hcp2, hcpid⟩ := List.mem_map.mp hcp
          exact unique_by_id hndm ⟨cp, List.mem_append_left _ hcp2,
            by rw [hcpid, hcid]⟩
        · refine unique_by_id hndm ⟨c, List.mem_append_right _ ?_, hcid⟩
          exact List.mem_filter.mpr ⟨hc, by simpa using hcp⟩
      · obtain ⟨c, hc, hcid⟩ := hrefp m hpm
        exact unique_by_id hndm ⟨c, List.mem_append_left _ hc, hcid⟩

/-- An empty mapping store. -/
def mp0 : Mappings := { phone_to_name := [], group_chats := [] }

/-- A single raw row carrying plain text from an individual contact. -/
def row0 : Row :=
  { message_id := 1, text := some "hi", attributed_body := none,
    is_from_me := true, date := "2024-01-02 03:04:05",
    contact_identifier := some "+15551234567", chat_identifier := none,
    chat_display_name := none }

/-- The message `extract_messages_rows mp0 [row0]` produces. -/
def w_msg : Message :=
  { id := 1, contactId := 1, content := "hi",
    date := "2024-01-02 03:04:05", isFromMe := true }

/-- Witness for C7 (amended): both parts instantiated — the assembly part
at a one-row run, the merge part at the concrete colliding datasets. -/
theorem c7_amended_reference_and_counts_witness :
    (w_msg ∈ (extract_messages_rows mp0 [row0]).messages ∧
      (∃! c, c ∈ (extract_messages_rows mp0 [row0]).contacts ∧
        c.id = w_msg.contactId)) ∧
    ((ds_prior.contacts.map (fun c => c.id)).Nodup ∧
     (c7_new.contacts.map (fun c => c.id)).Nodup ∧
     (∀ m ∈ ds_prior.messages, ∃ c ∈ ds_prior.contacts, c.id = m.contactId) ∧
     (∀ m ∈ c7_new.messages, ∃ c ∈ c7_new.contacts, c.id = m.contactId) ∧
     mk_msg 2 1 ∈ (merge_datasets ds_prior c7_new).messages ∧
     (∃! c, c ∈ (merge_datasets ds_prior c7_new).contacts ∧
       c.id = (mk_msg 2 1).contactId)) :=
  ⟨⟨by decide,
    (c7_amended_reference_and_counts.1 mp0 [row0]).1 w_msg (by decide)⟩,
   by decide, by decide, by decide, by decide, by decide,
   c7_amended_reference_and_counts.2 ds_prior c7_new (by decide) (by decide)
     (by decide) (by decide) (mk_msg 2 1) (by decide)⟩
